import Mathlib

/-!
Verification development for the glossary chat-bot (`src/GlossaryBotApp.ts`).

Strings are modelled as `List Char` (`Str`).  JavaScript `trim()` and the
`\s` character class are modelled by the whitespace set `isWSpace`
(space, tab, newline, carriage return, vertical tab, form feed);
`toLowerCase()` is modelled per character by `Char.toLower` (ASCII case
mapping), which is what the source relies on for its command words and
case-insensitive key/value comparison.
-/

/-- Whitespace class used by the embedding for both `trim()` and `\s`. -/
def isWSpace (c : Char) : Bool :=
  c = ' ' || c = '\t' || c = '\n' || c = '\r' || c = '\x0b' || c = '\x0c'

abbrev Str := List Char

/-- Strip leading whitespace (the left half of JavaScript `trim()`). -/
def trimL : Str → Str
  | [] => []
  | c :: cs => if isWSpace c then trimL cs else c :: cs

/-- Strip trailing whitespace (the right half of JavaScript `trim()`). -/
def trimR (s : Str) : Str := (trimL s.reverse).reverse

/-- Model of JavaScript `String.prototype.trim`. -/
def trim (s : Str) : Str := trimR (trimL s)

/-- Model of JavaScript `String.prototype.toLowerCase` (per-character ASCII). -/
def toLowerStr (s : Str) : Str := s.map Char.toLower

theorem trimL_cons_of_ws {c : Char} (cs : Str) (h : isWSpace c = true) :
    trimL (c :: cs) = trimL cs := by
  simp [trimL, h]

theorem trimL_cons_of_not_ws {c : Char} (cs : Str) (h : isWSpace c = false) :
    trimL (c :: cs) = c :: cs := by
  simp [trimL, h]

theorem trimL_length_le (s : Str) : (trimL s).length ≤ s.length := by
  induction s with
  | nil => simp [trimL]
  | cons c cs ih =>
    by_cases h : isWSpace c = true
    · rw [trimL_cons_of_ws cs h]
      exact Nat.le_trans ih (Nat.le_succ _)
    · rw [trimL_cons_of_not_ws cs (by simpa using h)]

theorem trimL_head_not_ws {s : Str} {c : Char} {cs : Str}
    (h : trimL s = c :: cs) : isWSpace c = false := by
  induction s with
  | nil => simp [trimL] at h
  | cons a as ih =>
    by_cases ha : isWSpace a = true
    · rw [trimL_cons_of_ws as ha] at h
      exact ih h
    · rw [trimL_cons_of_not_ws as (by simpa using ha)] at h
      cases h
      simpa using ha

theorem trimL_idem (s : Str) : trimL (trimL s) = trimL s := by
  cases h : trimL s with
  | nil => simp [trimL]
  | cons c cs => rw [trimL_cons_of_not_ws cs (trimL_head_not_ws h)]

/-- `trimL` over an append: if the first part does not vanish, it is only
trimmed on the left and the second part is untouched. -/
theorem trimL_append (xs ys : Str) :
    trimL (xs ++ ys) = if trimL xs = [] then trimL ys else trimL xs ++ ys := by
  induction xs with
  | nil => simp [trimL]
  | cons c cs ih =>
    by_cases h : isWSpace c = true
    · rw [List.cons_append, trimL_cons_of_ws _ h, trimL_cons_of_ws _ h, ih]
    · rw [List.cons_append, trimL_cons_of_not_ws _ (by simpa using h),
        trimL_cons_of_not_ws _ (by simpa using h)]
      simp

theorem trimR_eq_self {s : Str} (h : trimL s.reverse = s.reverse) :
    trimR s = s := by
  rw [trimR, h, List.reverse_reverse]

theorem trimR_idem (s : Str) : trimR (trimR s) = trimR s := by
  rw [trimR, trimR, List.reverse_reverse, trimL_idem]

/-- Pulling a non-whitespace head out of `trimR`. -/
theorem trimR_cons_of_not_ws {c : Char} (cs : Str) (h : isWSpace c = false) :
    trimR (c :: cs) = c :: trimR cs := by
  rw [trimR, trimR, List.reverse_cons, trimL_append]
  by_cases hn : trimL cs.reverse = []
  · simp [hn, trimL_cons_of_not_ws _ h, trimL, h]
  · simp [hn]

theorem trim_cons_of_not_ws {c : Char} (cs : Str) (h : isWSpace c = false) :
    trim (c :: cs) = c :: trimR cs := by
  rw [trim, trimL_cons_of_not_ws cs h, trimR_cons_of_not_ws cs h]

theorem trim_ne_nil_of_head {c : Char} (cs : Str) (h : isWSpace c = false) :
    trim (c :: cs) ≠ [] := by
  rw [trim_cons_of_not_ws cs h]
  simp

theorem trim_idem (s : Str) : trim (trim s) = trim s := by
  cases h : trimL s with
  | nil =>
    have hs : trim s = [] := by rw [trim, h]; rfl
    rw [hs]; rfl
  | cons c cs =>
    have hc := trimL_head_not_ws h
    have hs : trim s = c :: trimR cs := by
      rw [trim, h, trimR_cons_of_not_ws cs hc]
    rw [hs, trim_cons_of_not_ws _ hc, trimR_idem]

theorem trim_eq_self {s : Str} (h1 : trimL s = s) (h2 : trimL s.reverse = s.reverse) :
    trim s = s := by
  rw [trim, h1, trimR_eq_self h2]

theorem trimL_sublist (s : Str) : List.Sublist (trimL s) s := by
  induction s with
  | nil => simp [trimL]
  | cons c cs ih =>
    by_cases hc : isWSpace c = true
    · rw [trimL_cons_of_ws cs hc]
      exact ih.trans (List.sublist_cons_self c cs)
    · rw [trimL_cons_of_not_ws cs (by simpa using hc)]

/-- A string whose `trim` is itself has no leading whitespace. -/
theorem trimL_eq_self_of_trim_eq {s : Str} (h : trim s = s) : trimL s = s := by
  have hlen := trimL_length_le s
  rw [trim, trimR] at h
  have h2 : (trimL (trimL s).reverse).length = s.length := by
    have := congrArg List.length h
    simpa using this
  have h3 : (trimL (trimL s).reverse).length ≤ (trimL s).length := by
    have := trimL_length_le (trimL s).reverse
    simpa using this
  have h4 : s.length ≤ (trimL s).length := h2 ▸ h3
  exact (trimL_sublist s).eq_of_length (Nat.le_antisymm hlen h4)

theorem trimR_eq_self_of_trim_eq {s : Str} (h : trim s = s) : trimR s = s := by
  have h1 := trimL_eq_self_of_trim_eq h
  rw [trim, h1] at h
  exact h

/-! Data model (`GlossaryBotApp.ts` interfaces) and normalization helpers. -/

/-- One definition instance stored under a key (interface `GlossaryValue`). -/
structure GlossaryValue where
  value : Str
  createdAt : Str
  createdBy : Str
deriving DecidableEq, Repr

/-- Transient parse result (interface `KeyValuePair`). -/
structure KeyValuePair where
  key : Str
  value : Str
deriving DecidableEq, Repr

/-- Failure reason of `addValueToKey` (`AddValueResult.reason`). -/
inductive AddFailReason where
  | duplicate
  | err
deriving DecidableEq, Repr

/-- Result of `addValueToKey` (interface `AddValueResult`). -/
structure AddValueResult where
  added : Bool
  reason : Option AddFailReason
deriving DecidableEq, Repr

/-- One record of `IUser.emails`. -/
structure EmailRec where
  address : Str
  verified : Bool
deriving DecidableEq, Repr

/-- The parts of `IUser` the bot reads. -/
structure User where
  id : Str
  emails : List EmailRec
  username : Str
  name : Str
deriving DecidableEq, Repr

/-- The parts of `IMessage` the bot reads (`room.type` is the room-kind char). -/
structure Msg where
  text : Str
  sender : User
  roomType : Char
deriving DecidableEq, Repr

/-- The persisted association store: normalized key to the stored value list
(`readByAssociation` / `removeByAssociation` / `createWithAssociation`). -/
abbrev Store := List (Str × List GlossaryValue)

/-- `normalizeKey`: trim then lower-case, for case-insensitive comparison. -/
def normalizeKey (key : Str) : Str := toLowerStr (trim key)

/-- `isValidKey`: the normalized key is non-empty. -/
def isValidKey (key : Str) : Bool := 0 < (normalizeKey key).length

/-- `normalizeValue`: trim then lower-case. -/
def normalizeValue (v : Str) : Str := toLowerStr (trim v)

/-- `isValidValue`: the normalized value is non-empty. -/
def isValidValue (v : Str) : Bool := 0 < (normalizeValue v).length

/-- `getUserEmail`: first verified e-mail, else first e-mail, else username,
else display name, else "unknown" (empty strings are falsy). -/
def getUserEmail (u : User) : Str :=
  let primaryEmail : Option EmailRec :=
    match u.emails.find? (fun e => e.verified) with
    | some e => some e
    | none => u.emails.head?
  let addr : Str := match primaryEmail with
    | some e => e.address
    | none => []
  if addr ≠ [] then addr
  else if u.username ≠ [] then u.username
  else if u.name ≠ [] then u.name
  else "unknown".data

/-! Fixed user-facing message templates (`GlossaryBotApp.MESSAGES`). -/

def MSG_INVALID_ADD_FORMAT : Str :=
  "❌ Неверный формат команды. Используйте: `!add <ключ>:<значение>`".data

def MSG_INVALID_MULTI_ADD_FORMAT : Str :=
  "❌ Неверный формат команды. Используйте:\n`!multi-add\n<ключ1>:<значение1>;\n<ключ2>:<значение2>;`".data

def MSG_INVALID_REMOVE_FORMAT : Str :=
  "❌ Неверный формат команды. Используйте:\n`!remove <ключ>` - удалить весь ключ\n`!remove <ключ>:<значение>` - удалить конкретное значение".data

def MSG_INVALID_DETAILS_FORMAT : Str :=
  "❌ Неверный формат команды. Используйте: `!details <ключ>:<значение>`".data

def MSG_INVALID_SEARCH_KEY : Str := "❌ Ключ не должен быть пустым.".data

def MSG_VALUE_ADDED (key value : Str) : Str :=
  "✅ Значение успешно добавлено для ключа \"*".data ++ key ++ "*\":\n".data ++ value

def MSG_DUPLICATE_VALUE (key : Str) : Str :=
  "❌ Такое значение уже существует для ключа \"*".data ++ key ++ "*\".".data

def MSG_SAVE_ERROR : Str := "❌ Произошла ошибка при сохранении.".data

def MSG_VALUE_REMOVED (key value : Str) : Str :=
  "✅ Значение \"*".data ++ value ++ "*\" успешно удалено для ключа \"*".data ++ key ++ "*\"".data

def MSG_VALUE_NOT_FOUND (key value : Str) : Str :=
  "❌ Значение \"*".data ++ value ++ "*\" не найдено для ключа \"*".data ++ key ++ "*\"".data

def MSG_KEY_REMOVED (key : Str) : Str :=
  "✅ Ключ \"*".data ++ key ++ "*\" и все его значения успешно удалены".data

def MSG_KEY_NOT_FOUND (key : Str) : Str :=
  "❌ Ключ \"*".data ++ key ++ "*\" не найден".data

def MSG_KEY_NOT_FOUND_SEARCH (key : Str) : Str :=
  "Значение для ключа \"*".data ++ key ++
    "*\" не найдено.\n\nЧтобы добавить значение, используйте команду:\n`!add ".data ++
    key ++ ": <ваше значение>`".data

/-! Persistence primitives.  `readByAssociation` returns the records for the
association (the code uses the first one); `removeByAssociation` deletes them;
`createWithAssociation` appends a fresh record. -/

def lookupAssoc : Store → Str → Option (List GlossaryValue)
  | [], _ => none
  | e :: rest, k => if e.1 = k then some e.2 else lookupAssoc rest k

def removeAssoc : Store → Str → Store
  | [], _ => []
  | e :: rest, k => if e.1 = k then removeAssoc rest k else e :: removeAssoc rest k

def createAssoc (s : Store) (k : Str) (vs : List GlossaryValue) : Store :=
  s ++ [(k, vs)]

/-- `getEntryForKey`: validity check, then read; a read fault (`rf`) is caught
inside and reported as `none`; an entry with a missing/empty values list is
also reported as `none`. -/
def getEntryForKey (rf : Bool) (s : Store) (key : Str) : Option (List GlossaryValue) :=
  if !isValidKey key then none
  else if rf then none
  else match lookupAssoc s (normalizeKey key) with
    | none => none
    | some vs => if vs.isEmpty then none else some vs

/-- `getValuesForKey`: the entry's value strings, falsy (empty) ones dropped. -/
def getValuesForKey (rf : Bool) (s : Store) (key : Str) : Option (List Str) :=
  match getEntryForKey rf s key with
  | none => none
  | some entry => some ((entry.map (fun item => item.value)).filter (fun v => !v.isEmpty))

/-- `saveValuesForKey`: full replacement, delete-then-recreate.  A write fault
(`wf`) is modelled as `createWithAssociation` raising after the delete
succeeded; the `Except` error carries the store at the raise point. -/
def saveValuesForKey (wf : Bool) (s : Store) (key : Str) (vs : List GlossaryValue) :
    Except Store Store :=
  if !isValidKey key then Except.error s
  else
    let s1 := removeAssoc s (normalizeKey key)
    if wf then Except.error s1
    else Except.ok (createAssoc s1 (normalizeKey key) vs)

/-- `addValueToKey`: validate, load, duplicate check against normalized
values, append a new `GlossaryValue` (`now` models `new Date().toISOString()`),
persist full replacement; any raise is caught and mapped to the error result. -/
def addValueToKey (rf wf : Bool) (s : Store) (key value : Str) (user : User)
    (now : Str) : AddValueResult × Store :=
  if !isValidKey key || !isValidValue value then (⟨false, some .err⟩, s)
  else
    let normalizedValue := trim value
    let normalizedValueKey := normalizeValue normalizedValue
    let existingValues := (getEntryForKey rf s key).getD []
    let hasDuplicate :=
      existingValues.any (fun item => normalizeValue item.value = normalizedValueKey)
    if hasDuplicate then (⟨false, some .duplicate⟩, s)
    else
      let createdBy := getUserEmail user
      let newValues := existingValues ++ [⟨normalizedValue, now, createdBy⟩]
      match saveValuesForKey wf s key newValues with
      | Except.ok s2 => (⟨true, none⟩, s2)
      | Except.error s2 => (⟨false, some .err⟩, s2)

/-- `removeKey`: delete the whole entry; `false` if the key has no entry.  The
delete raising (`wf`) is caught and yields `false` with the store unchanged. -/
def removeKey (rf wf : Bool) (s : Store) (key : Str) : Bool × Store :=
  if !isValidKey key then (false, s)
  else match getEntryForKey rf s key with
    | none => (false, s)
    | some _ =>
      if wf then (false, s)
      else (true, removeAssoc s (normalizeKey key))

/-- `removeValueForKey`: filter out values whose normalized form equals the
normalized target (falsy stored values are kept); nothing removed means
`false`; an emptied list deletes the whole entry; otherwise the filtered list
is persisted.  A raise in the persist step is caught and yields `false`. -/
def removeValueForKey (rf wf : Bool) (s : Store) (key value : Str) : Bool × Store :=
  if !isValidKey key || !isValidValue value then (false, s)
  else match getEntryForKey rf s key with
    | none => (false, s)
    | some entry =>
      if entry.isEmpty then (false, s)
      else
        let normalizedValue := normalizeValue value
        let filtered := entry.filter
          (fun item => item.value.isEmpty || !(normalizeValue item.value = normalizedValue))
        if filtered.length = entry.length then (false, s)
        else if filtered.isEmpty then
          if wf then (false, s)
          else (true, removeAssoc s (normalizeKey key))
        else match saveValuesForKey wf s key filtered with
          | Except.ok s2 => (true, s2)
          | Except.error s2 => (false, s2)

/-! Command parsing (`isCommand`, `matchesCommand`, `getCommandType`,
`extractCommandPayload`, `parseKeyValue`, `parseMultiAdd`). -/

def CMD_ADD : Str := "add".data
def CMD_MULTI_ADD : Str := "multi-add".data
def CMD_REMOVE : Str := "remove".data
def CMD_DETAILS : Str := "details".data
def CMD_HELP : Str := "help".data

/-- The `CommandType` union (minus `null`, modelled by `Option Cmd`). -/
inductive Cmd where
  | add
  | multiAdd
  | remove
  | details
  | help
deriving DecidableEq, Repr

/-- The command word each `Cmd` stands for. -/
def cmdWord : Cmd → Str
  | .add => CMD_ADD
  | .multiAdd => CMD_MULTI_ADD
  | .remove => CMD_REMOVE
  | .details => CMD_DETAILS
  | .help => CMD_HELP

/-- `isCommand`: the trimmed text starts with the `!` command marker. -/
def isCommand (t : Str) : Bool :=
  match trim t with
  | [] => false
  | c :: _ => c = '!'

/-- `matchesCommand`: `!` marker, then the command word case-sensitively, and
the character right after the word is end-of-string or whitespace. -/
def matchesCommand (t : Str) (cmd : Str) : Bool :=
  if !isCommand t then false
  else
    let trimmed := trim t
    if !List.isPrefixOf ('!' :: cmd) trimmed then false
    else match trimmed.drop (cmd.length + 1) with
      | [] => true
      | ch :: _ => isWSpace ch

/-- `getCommandType`: fixed priority order, first match wins, else `none`. -/
def getCommandType (t : Str) : Option Cmd :=
  if matchesCommand t CMD_ADD then some .add
  else if matchesCommand t CMD_MULTI_ADD then some .multiAdd
  else if matchesCommand t CMD_REMOVE then some .remove
  else if matchesCommand t CMD_DETAILS then some .details
  else if matchesCommand t CMD_HELP then some .help
  else none

/-- `extractCommandPayload`: strip the `!word` token (matched against the
lower-cased text) and trim what remains; empty if the token is absent. -/
def extractCommandPayload (t : Str) (cmd : Str) : Str :=
  let trimmed := trim t
  if !List.isPrefixOf ('!' :: cmd) (toLowerStr trimmed) then []
  else trim (trimmed.drop (cmd.length + 1))

/-- Index of the first `:` (model of `String.prototype.indexOf`). -/
def indexOfColon : Str → Option Nat
  | [] => none
  | c :: cs => if c = ':' then some 0 else (indexOfColon cs).map (fun n => n + 1)

/-- `parseKeyValue`: split at the first colon, trim both sides; `none` when
there is no colon, the colon is first, or either side is empty after trim. -/
def parseKeyValue (t : Str) : Option KeyValuePair :=
  if t = [] then none
  else match indexOfColon t with
    | none => none
    | some 0 => none
    | some i =>
      let key := trim (t.take i)
      let value := trim (t.drop (i + 1))
      if !isValidKey key || !isValidValue value then none
      else some ⟨key, value⟩

/-- Split at every newline (model of `String.prototype.split('\n')`). -/
def splitLines : Str → List Str
  | [] => [[]]
  | c :: cs =>
    match splitLines cs with
    | [] => [[]]
    | l :: ls => if c = '\n' then [] :: l :: ls else (c :: l) :: ls

/-- `parseMultiAdd`: trim each line, drop blank ones, strip one optional
trailing `;`, parse each; lines that fail to parse are silently skipped. -/
def parseMultiAdd (t : Str) : List KeyValuePair :=
  let lines := ((splitLines t).map trim).filter (fun l => 0 < l.length)
  lines.filterMap (fun line =>
    let cleanLine := if line.getLast? = some ';' then trim line.dropLast else line
    parseKeyValue cleanLine)

/-! Reply formatting and the outbound send. -/

/-- Decimal rendering of a count interpolated into a template. -/
def natStr (n : Nat) : Str := (Nat.repr n).data

/-- Model of `Array.prototype.join('\n')`. -/
def joinLines : List Str → Str
  | [] => []
  | [x] => x
  | x :: y :: rest => x ++ '\n' :: joinLines (y :: rest)

/-- `formatValuesForDisplay`: singular template for one value, otherwise the
plural template with a numbered list in stored order. -/
def formatValuesForDisplay (key : Str) (values : List Str) : Str :=
  if values.length = 1 then
    "*Ключ:* ".data ++ key ++ "\n*Значение:* ".data ++ values.headD []
  else
    let lines := joinLines (values.enum.map (fun p => natStr (p.1 + 1) ++ ". ".data ++ p.2))
    "*Ключ:* ".data ++ key ++ "\n*Значения (".data ++ natStr values.length ++
      "):*\n".data ++ lines

/-- `sendMessage`: a send happens unless the text is blank after trim (the
missing-room guard has no counterpart here, rooms always exist in the model).
The result is the list of texts actually sent. -/
def sendOut (text : Str) : List Str :=
  if trim text = [] then [] else [text]

/-- The static `!help` reply. -/
def helpText : Str :=
  ("*📖 Справка по командам бота-глоссария*\n\n" ++
    "*!add <ключ>:<значение>*\nДобавляет значение для указанного ключа.\n" ++
    "Пример: `!add API:Application Programming Interface`\n\n" ++
    "*!multi-add*\nПозволяет добавить несколько ключей/значений за раз.\n" ++
    "Пример:\n```\n!multi-add\nAPI:Application Programming Interface;\nREST:Representational State Transfer;\n```\n\n" ++
    "*!remove <ключ>*\nУдаляет весь ключ и все его значения.\nПример: `!remove API`\n\n" ++
    "*!remove <ключ>:<значение>*\nУдаляет только одно конкретное значение для ключа.\n" ++
    "Пример: `!remove API:Application Programming Interface`\n\n" ++
    "*!details <ключ>:<значение>*\nПоказывает дату добавления и e-mail автора значения.\n" ++
    "Пример: `!details API:Application Programming Interface`\n\n" ++
    "*!help*\nПоказывает эту справку.\n\n" ++
    "*Поиск*\nЕсли отправить просто ключ (без префикса !), бот найдет и покажет все значения для этого ключа.").data

/-! Command handlers.  Each returns the outbound texts in send order and the
store afterwards.  `fmtDate` abstracts `formatDate` (host `Date` parsing and
ru-RU locale rendering, outside the embedding); `now` abstracts
`new Date().toISOString()`. -/

/-- `handleAddCommand`. -/
def handleAddCommand (rf wf : Bool) (now : Str) (s : Store) (m : Msg) :
    List Str × Store :=
  let text := trim m.text
  let commandText := extractCommandPayload text CMD_ADD
  match parseKeyValue commandText with
  | none => (sendOut MSG_INVALID_ADD_FORMAT, s)
  | some pair =>
    let r := addValueToKey rf wf s pair.key pair.value m.sender now
    let responseText :=
      if r.1.added then MSG_VALUE_ADDED pair.key pair.value
      else if r.1.reason = some .duplicate then MSG_DUPLICATE_VALUE pair.key
      else MSG_SAVE_ERROR
    (sendOut responseText, r.2)

/-- The `!multi-add` processing loop: sequential, independent adds with
tallies (added, duplicates, errors) threaded over the store. -/
def processPairs (rf wf : Bool) (now : Str) (user : User) :
    Store → List KeyValuePair → Nat × Nat × Nat × Store
  | s, [] => (0, 0, 0, s)
  | s, p :: rest =>
    let r := addValueToKey rf wf s p.key p.value user now
    let t := processPairs rf wf now user r.2 rest
    if r.1.added then (t.1 + 1, t.2.1, t.2.2.1, t.2.2.2)
    else if r.1.reason = some .duplicate then (t.1, t.2.1 + 1, t.2.2.1, t.2.2.2)
    else (t.1, t.2.1, t.2.2.1 + 1, t.2.2.2)

/-- The `!multi-add` summary: added count always, duplicate and error counts
only when nonzero. -/
def multiAddSummary (a d e : Nat) : Str :=
  joinLines (["✅ Добавлено значений: ".data ++ natStr a]
    ++ (if 0 < d then ["⚠️ Пропущено дубликатов: ".data ++ natStr d] else [])
    ++ (if 0 < e then ["❌ Ошибок: ".data ++ natStr e] else []))

/-- `handleMultiAddCommand`. -/
def handleMultiAddCommand (rf wf : Bool) (now : Str) (s : Store) (m : Msg) :
    List Str × Store :=
  let commandText := extractCommandPayload (trim m.text) CMD_MULTI_ADD
  let pairs := parseMultiAdd commandText
  if pairs = [] then (sendOut MSG_INVALID_MULTI_ADD_FORMAT, s)
  else
    let t := processPairs rf wf now m.sender s pairs
    (sendOut (multiAddSummary t.1 t.2.1 t.2.2.1), t.2.2.2)

/-- `handleRemoveCommand`: value-removal when the payload parses as a pair,
else whole-key removal on the bare payload. -/
def handleRemoveCommand (rf wf : Bool) (s : Store) (m : Msg) :
    List Str × Store :=
  let commandText := extractCommandPayload (trim m.text) CMD_REMOVE
  match parseKeyValue commandText with
  | some pair =>
    let r := removeValueForKey rf wf s pair.key pair.value
    (sendOut (if r.1 then MSG_VALUE_REMOVED pair.key pair.value
      else MSG_VALUE_NOT_FOUND pair.key pair.value), r.2)
  | none =>
    let key := trim commandText
    if !isValidKey key then (sendOut MSG_INVALID_REMOVE_FORMAT, s)
    else
      let r := removeKey rf wf s key
      (sendOut (if r.1 then MSG_KEY_REMOVED key else MSG_KEY_NOT_FOUND key), r.2)

/-- `handleDetailsCommand` (read-only, so only the sends are returned). -/
def handleDetailsCommand (rf : Bool) (fmtDate : Str → Str) (s : Store) (m : Msg) :
    List Str :=
  let commandText := extractCommandPayload (trim m.text) CMD_DETAILS
  match parseKeyValue commandText with
  | none => sendOut MSG_INVALID_DETAILS_FORMAT
  | some pair =>
    match getEntryForKey rf s pair.key with
    | none => sendOut (MSG_KEY_NOT_FOUND pair.key)
    | some entry =>
      let normalizedValue := normalizeValue pair.value
      match entry.find? (fun item => normalizeValue item.value = normalizedValue) with
      | none => sendOut (MSG_VALUE_NOT_FOUND pair.key pair.value)
      | some valueInfo =>
        sendOut ("*Ключ:* ".data ++ pair.key ++ "\n*Значение:* ".data ++
          valueInfo.value ++ "\n*Добавлено:* ".data ++ fmtDate valueInfo.createdAt ++
          "\n*Автор:* ".data ++ valueInfo.createdBy)

/-- `handleKeySearch` (read-only): fetch, then singular/plural display or the
not-found hint with the suggested `!add` syntax. -/
def handleKeySearch (rf : Bool) (s : Store) (key : Str) : List Str :=
  if !isValidKey key then sendOut MSG_INVALID_SEARCH_KEY
  else match getValuesForKey rf s key with
    | some values =>
      if 0 < values.length then sendOut (formatValuesForDisplay key values)
      else sendOut (MSG_KEY_NOT_FOUND_SEARCH key)
    | none => sendOut (MSG_KEY_NOT_FOUND_SEARCH key)

/-- `executeCommand`: route a classified command to its handler. -/
def executeCommand (c : Cmd) (rf wf : Bool) (fmtDate : Str → Str) (now : Str)
    (s : Store) (m : Msg) : List Str × Store :=
  match c with
  | .add => handleAddCommand rf wf now s m
  | .multiAdd => handleMultiAddCommand rf wf now s m
  | .remove => handleRemoveCommand rf wf s m
  | .details => (handleDetailsCommand rf fmtDate s m, s)
  | .help => (sendOut helpText, s)

/-- `shouldProcessMessage`: direct room, not from the bot itself (`appUser`
is the host-resolved bot identity, `none` when unavailable), non-blank text. -/
def shouldProcessMessage (appUser : Option User) (m : Msg) : Bool :=
  if m.roomType ≠ 'd' then false
  else match appUser with
    | none => false
    | some bot =>
      if m.sender.id = bot.id then false
      else !(trim m.text = [])

/-- `executePostMessageSent`: guard, classify, dispatch; non-command text
falls through to the bare-key search. -/
def executePostMessageSent (appUser : Option User) (rf wf : Bool)
    (fmtDate : Str → Str) (now : Str) (s : Store) (m : Msg) : List Str × Store :=
  if !shouldProcessMessage appUser m then ([], s)
  else
    let text := trim m.text
    match getCommandType text with
    | some c => executeCommand c rf wf fmtDate now s m
    | none => (handleKeySearch rf s text, s)

/-! Normalization and store lemmas. -/

theorem normalizeValue_trim (v : Str) : normalizeValue (trim v) = normalizeValue v := by
  rw [normalizeValue, normalizeValue, trim_idem]

theorem isValidKey_iff {k : Str} : isValidKey k = true ↔ trim k ≠ [] := by
  rw [isValidKey, normalizeKey, toLowerStr]
  simp [List.length_pos]

theorem isValidValue_iff {v : Str} : isValidValue v = true ↔ trim v ≠ [] := by
  rw [isValidValue, normalizeValue, toLowerStr]
  simp [List.length_pos]

theorem isValidValue_of_normalize_eq {v w : Str}
    (h : normalizeValue v = normalizeValue w) (hw : isValidValue w = true) :
    isValidValue v = true := by
  rw [isValidValue] at hw ⊢
  rw [h]
  exact hw

theorem mem_removeAssoc {s : Store} {k : Str} {e : Str × List GlossaryValue}
    (h : e ∈ removeAssoc s k) : e ∈ s ∧ e.1 ≠ k := by
  induction s with
  | nil => simp [removeAssoc] at h
  | cons a rest ih =>
    by_cases ha : a.1 = k
    · rw [removeAssoc, if_pos ha] at h
      rcases ih h with ⟨h1, h2⟩
      exact ⟨List.mem_cons_of_mem a h1, h2⟩
    · rw [removeAssoc, if_neg ha] at h
      rcases List.mem_cons.mp h with h1 | h1
      · exact ⟨h1 ▸ List.mem_cons_self a rest, h1 ▸ ha⟩
      · rcases ih h1 with ⟨h2, h3⟩
        exact ⟨List.mem_cons_of_mem a h2, h3⟩

theorem lookupAssoc_eq_none_of_all_ne {s : Store} {k : Str}
    (h : ∀ e ∈ s, e.1 ≠ k) : lookupAssoc s k = none := by
  induction s with
  | nil => rfl
  | cons a rest ih =>
    rw [lookupAssoc, if_neg (h a (List.mem_cons_self a rest))]
    exact ih (fun e he => h e (List.mem_cons_of_mem a he))

theorem lookupAssoc_removeAssoc_self (s : Store) (k : Str) :
    lookupAssoc (removeAssoc s k) k = none :=
  lookupAssoc_eq_none_of_all_ne (fun _ he => (mem_removeAssoc he).2)

theorem lookupAssoc_append (s1 s2 : Store) (k : Str) :
    lookupAssoc (s1 ++ s2) k =
      match lookupAssoc s1 k with
      | some vs => some vs
      | none => lookupAssoc s2 k := by
  induction s1 with
  | nil => simp [lookupAssoc]
  | cons a rest ih =>
    by_cases ha : a.1 = k
    · simp [lookupAssoc, ha]
    · simp only [List.cons_append, lookupAssoc, if_neg ha]
      exact ih

theorem lookupAssoc_save (s : Store) (k : Str) (vs : List GlossaryValue) :
    lookupAssoc (createAssoc (removeAssoc s k) k vs) k = some vs := by
  rw [createAssoc, lookupAssoc_append, lookupAssoc_removeAssoc_self]
  simp [lookupAssoc]

theorem getEntryForKey_save_self {key : Str} (s : Store) (vs : List GlossaryValue)
    (hk : isValidKey key = true) (hvs : vs ≠ []) :
    getEntryForKey false
      (createAssoc (removeAssoc s (normalizeKey key)) (normalizeKey key) vs) key =
      some vs := by
  rw [getEntryForKey, hk]
  simp [lookupAssoc_save, List.isEmpty_iff, hvs]

theorem getEntryForKey_removeAssoc_self {key : Str} (s : Store) (rf : Bool) :
    getEntryForKey rf (removeAssoc s (normalizeKey key)) key = none := by
  by_cases hk : isValidKey key = true
  · cases rf with
    | true => simp [getEntryForKey, hk]
    | false => simp [getEntryForKey, hk, lookupAssoc_removeAssoc_self]
  · simp [getEntryForKey, Bool.eq_false_iff.mpr hk]

/-- Closed form of `addValueToKey`: invalid input, duplicate, write-fault and
success cases. -/
theorem addValueToKey_spec (rf wf : Bool) (s : Store) (key value : Str)
    (u : User) (now : Str) :
    addValueToKey rf wf s key value u now =
      if !isValidKey key || !isValidValue value then (⟨false, some .err⟩, s)
      else if ((getEntryForKey rf s key).getD []).any
          (fun item => normalizeValue item.value = normalizeValue value) then
        (⟨false, some .duplicate⟩, s)
      else if wf then
        (⟨false, some .err⟩, removeAssoc s (normalizeKey key))
      else
        (⟨true, none⟩,
          createAssoc (removeAssoc s (normalizeKey key)) (normalizeKey key)
            (((getEntryForKey rf s key).getD []) ++
              [⟨trim value, now, getUserEmail u⟩])) := by
  rw [addValueToKey]
  by_cases hval : (!isValidKey key || !isValidValue value) = true
  · simp [hval]
  · have hk : isValidKey key = true := by
      rcases Bool.or_eq_false_iff.mp (Bool.eq_false_iff.mpr hval) with ⟨h1, _⟩
      simpa using h1
    simp only [Bool.eq_false_iff.mpr hval, Bool.false_eq_true, if_false]
    simp only [normalizeValue_trim]
    by_cases hdup : ((getEntryForKey rf s key).getD []).any
        (fun item => normalizeValue item.value = normalizeValue value) = true
    · simp [hdup]
    · simp only [Bool.eq_false_iff.mpr hdup, Bool.false_eq_true, if_false]
      rw [saveValuesForKey, hk]
      cases wf with
      | true => simp
      | false => simp

/-! Facts extracted from a successful `addValueToKey` call. -/

theorem addValueToKey_added_facts {rf : Bool} {s s1 : Store} {key value : Str}
    {u : User} {now : Str}
    (h : addValueToKey rf false s key value u now = (⟨true, none⟩, s1)) :
    isValidKey key = true ∧ isValidValue value = true ∧
    ((getEntryForKey rf s key).getD []).any
      (fun item => normalizeValue item.value = normalizeValue value) = false ∧
    s1 = createAssoc (removeAssoc s (normalizeKey key)) (normalizeKey key)
      (((getEntryForKey rf s key).getD []) ++ [⟨trim value, now, getUserEmail u⟩]) := by
  rw [addValueToKey_spec] at h
  by_cases hval : (!isValidKey key || !isValidValue value) = true
  · rw [if_pos hval] at h
    simp at h
  · have hval' := Bool.eq_false_iff.mpr hval
    rcases Bool.or_eq_false_iff.mp hval' with ⟨h1, h2⟩
    have hk : isValidKey key = true := by simpa using h1
    have hv : isValidValue value = true := by simpa using h2
    rw [hval', if_neg (by simp)] at h
    by_cases hdup : ((getEntryForKey rf s key).getD []).any
        (fun item => normalizeValue item.value = normalizeValue value) = true
    · rw [if_pos hdup] at h
      simp at h
    · have hdup' := Bool.eq_false_iff.mpr hdup
      rw [hdup', if_neg (by simp), if_neg (by simp)] at h
      refine ⟨hk, hv, hdup', ?_⟩
      exact (Prod.mk.injEq _ _ _ _ ▸ h).2.symm

/-- C1: after `addValueToKey(k, v)` returns Added, a second add of any value
normalizing equal to `v` returns Duplicate, leaves the store unchanged, and
the stored list holds exactly one value whose normalized form is that of
`v`. -/
theorem c1_add_idempotent (s s1 : Store) (k v vp : Str) (u up : User)
    (now nowp : Str)
    (hadd : addValueToKey false false s k v u now = (⟨true, none⟩, s1))
    (hvp : normalizeValue vp = normalizeValue v) :
    addValueToKey false false s1 k vp up nowp = (⟨false, some .duplicate⟩, s1) ∧
    ∃ vs, lookupAssoc s1 (normalizeKey k) = some vs ∧
      vs.countP (fun item => normalizeValue item.value = normalizeValue v) = 1 := by
  rcases addValueToKey_added_facts hadd with ⟨hk, hv, hdup, hs1⟩
  have hvv' : isValidValue vp = true := isValidValue_of_normalize_eq hvp hv
  have hnewne : (((getEntryForKey false s k).getD []) ++
      [(⟨trim v, now, getUserEmail u⟩ : GlossaryValue)]) ≠ [] := by simp
  have hentry : getEntryForKey false s1 k =
      some (((getEntryForKey false s k).getD []) ++
        [⟨trim v, now, getUserEmail u⟩]) := by
    rw [hs1]
    exact getEntryForKey_save_self s _ hk hnewne
  constructor
  · rw [addValueToKey_spec, hk, hvv']
    have hany : (((getEntryForKey false s1 k).getD [])).any
        (fun item => normalizeValue item.value = normalizeValue vp) = true := by
      rw [hentry]
      simp only [Option.getD_some, List.any_append, List.any_cons, List.any_nil]
      have : normalizeValue (trim v) = normalizeValue vp := by
        rw [normalizeValue_trim, hvp]
      simp [this]
    rw [hany]
    simp [hs1]
  · refine ⟨((getEntryForKey false s k).getD []) ++ [⟨trim v, now, getUserEmail u⟩],
      ?_, ?_⟩
    · rw [hs1]
      exact lookupAssoc_save s (normalizeKey k) _
    · rw [List.countP_append]
      have h0 : ((getEntryForKey false s k).getD []).countP
          (fun item => normalizeValue item.value = normalizeValue v) = 0 :=
        List.countP_eq_zero.mpr (List.any_eq_false.mp hdup)
      rw [h0]
      simp [List.countP_cons, normalizeValue_trim]

/-- Witness for C1 at a concrete store and value pair. -/
theorem c1_witness :
    addValueToKey false false [] "api".data "REST".data
        ⟨"u1".data, [], "bob".data, "Bob".data⟩ "T1".data =
      (⟨true, none⟩,
        [("api".data, [⟨"REST".data, "T1".data, "bob".data⟩])]) ∧
    normalizeValue " rest ".data = normalizeValue "REST".data ∧
    (addValueToKey false false
        [("api".data, [⟨"REST".data, "T1".data, "bob".data⟩])] "api".data
        " rest ".data ⟨"u2".data, [], "eve".data, "Eve".data⟩ "T2".data =
      (⟨false, some .duplicate⟩,
        [("api".data, [⟨"REST".data, "T1".data, "bob".data⟩])]) ∧
    ∃ vs, lookupAssoc [("api".data, [⟨"REST".data, "T1".data, "bob".data⟩])]
        (normalizeKey "api".data) = some vs ∧
      vs.countP (fun item => normalizeValue item.value =
        normalizeValue "REST".data) = 1) :=
  ⟨by decide, by decide,
    c1_add_idempotent [] _ "api".data "REST".data " rest ".data
      ⟨"u1".data, [], "bob".data, "Bob".data⟩
      ⟨"u2".data, [], "eve".data, "Eve".data⟩ "T1".data "T2".data
      (by decide) (by decide)⟩

/-! The no-empty-entry invariant. -/

/-- Every persisted entry has at least one value. -/
def storeInvariant (s : Store) : Prop := ∀ e ∈ s, e.2 ≠ []

theorem storeInvariant_removeAssoc {s : Store} (k : Str)
    (h : storeInvariant s) : storeInvariant (removeAssoc s k) :=
  fun e he => h e (mem_removeAssoc he).1

theorem storeInvariant_createAssoc {s : Store} {k : Str} {vs : List GlossaryValue}
    (h : storeInvariant s) (hvs : vs ≠ []) : storeInvariant (createAssoc s k vs) := by
  intro e he
  rcases List.mem_append.mp he with h1 | h1
  · exact h e h1
  · rcases List.mem_singleton.mp h1 with rfl
    exact hvs

/-- Closed form of `removeValueForKey`. -/
theorem removeValueForKey_spec (rf wf : Bool) (s : Store) (key value : Str) :
    removeValueForKey rf wf s key value =
      if !isValidKey key || !isValidValue value then (false, s)
      else match getEntryForKey rf s key with
        | none => (false, s)
        | some entry =>
          if entry.isEmpty then (false, s)
          else
            let filtered := entry.filter (fun item =>
              item.value.isEmpty || !(normalizeValue item.value = normalizeValue value))
            if filtered.length = entry.length then (false, s)
            else if filtered.isEmpty then
              if wf then (false, s) else (true, removeAssoc s (normalizeKey key))
            else if wf then (false, removeAssoc s (normalizeKey key))
            else (true, createAssoc (removeAssoc s (normalizeKey key))
              (normalizeKey key) filtered) := by
  rw [removeValueForKey]
  by_cases hval : (!isValidKey key || !isValidValue value) = true
  · simp [hval]
  · have hval' := Bool.eq_false_iff.mpr hval
    have hk : isValidKey key = true := by
      rcases Bool.or_eq_false_iff.mp hval' with ⟨h1, _⟩
      simpa using h1
    rw [hval']
    simp only [Bool.false_eq_true, if_false]
    cases hentry : getEntryForKey rf s key with
    | none => rfl
    | some entry =>
      by_cases hemp : entry.isEmpty = true
      · simp [hemp]
      · have hemp' := Bool.eq_false_iff.mpr hemp
        simp only [hemp', Bool.false_eq_true, if_false]
        by_cases hlen : (entry.filter (fun item =>
            item.value.isEmpty ||
              !(normalizeValue item.value = normalizeValue value))).length =
            entry.length
        · simp [hlen]
        · simp only [hlen, if_false]
          by_cases hfe : (entry.filter (fun item =>
              item.value.isEmpty ||
                !(normalizeValue item.value = normalizeValue value))).isEmpty = true
          · simp [hfe]
          · have hfe' := Bool.eq_false_iff.mpr hfe
            simp only [hfe', Bool.false_eq_true, if_false]
            rw [saveValuesForKey, hk]
            cases wf with
            | true => simp
            | false => simp

theorem storeInvariant_addValueToKey (rf wf : Bool) (s : Store) (k v : Str)
    (u : User) (now : Str) (h : storeInvariant s) :
    storeInvariant (addValueToKey rf wf s k v u now).2 := by
  rw [addValueToKey_spec]
  split
  · exact h
  · split
    · exact h
    · split
      · exact storeInvariant_removeAssoc _ h
      · exact storeInvariant_createAssoc (storeInvariant_removeAssoc _ h) (by simp)

theorem storeInvariant_removeValueForKey (rf wf : Bool) (s : Store) (k v : Str)
    (h : storeInvariant s) : storeInvariant (removeValueForKey rf wf s k v).2 := by
  rw [removeValueForKey_spec]
  repeat' split
  all_goals dsimp only
  all_goals repeat' split
  all_goals first
    | exact h
    | exact storeInvariant_removeAssoc _ h
    | (refine storeInvariant_createAssoc (storeInvariant_removeAssoc _ h) ?_
       intro hnil
       simp_all)

theorem storeInvariant_removeKey (rf wf : Bool) (s : Store) (k : Str)
    (h : storeInvariant s) : storeInvariant (removeKey rf wf s k).2 := by
  rw [removeKey]
  split
  · exact h
  · split
    · exact h
    · split
      · exact h
      · exact storeInvariant_removeAssoc _ h

/-- Removing the only stored value of a key deletes the whole entry. -/
theorem removeOnlyValue_deletes {s s1 : Store} {k v : Str} {w : GlossaryValue}
    (hentry : getEntryForKey false s k = some [w])
    (hrm : removeValueForKey false false s k v = (true, s1)) :
    getEntryForKey false s1 k = none := by
  rw [removeValueForKey_spec] at hrm
  by_cases hval : (!isValidKey k || !isValidValue v) = true
  · rw [if_pos hval] at hrm
    simp at hrm
  · rw [Bool.eq_false_iff.mpr hval] at hrm
    simp only [Bool.false_eq_true, if_false] at hrm
    rw [hentry] at hrm
    cases hp : (w.value.isEmpty || !(normalizeValue w.value = normalizeValue v)) with
    | true =>
      simp [hp] at hrm
    | false =>
      simp [hp] at hrm
      rw [← hrm]
      exact getEntryForKey_removeAssoc_self s false

/-- C2: every store operation preserves the no-empty-entry invariant, and
removing the only value of a key deletes the entry, so a subsequent
`getEntryForKey` reports absent. -/
theorem c2_no_empty_persisted :
    (∀ rf wf s k v u now, storeInvariant s →
      storeInvariant (addValueToKey rf wf s k v u now).2) ∧
    (∀ rf wf s k v, storeInvariant s →
      storeInvariant (removeValueForKey rf wf s k v).2) ∧
    (∀ rf wf s k, storeInvariant s → storeInvariant (removeKey rf wf s k).2) ∧
    (∀ s s1 k v w, getEntryForKey false s k = some [w] →
      removeValueForKey false false s k v = (true, s1) →
      getEntryForKey false s1 k = none) :=
  ⟨storeInvariant_addValueToKey, storeInvariant_removeValueForKey,
    storeInvariant_removeKey,
    fun _ _ _ _ _ h1 h2 => removeOnlyValue_deletes h1 h2⟩

/-- Witness for C2: a concrete add preserves the invariant, and removing the
only value of a concrete key leaves the key absent. -/
theorem c2_witness :
    storeInvariant ([] : Store) ∧
    storeInvariant (addValueToKey false false [] "k".data "v".data
      ⟨"u".data, [], "b".data, "B".data⟩ "T".data).2 ∧
    getEntryForKey false [("k".data, [⟨"v".data, "T".data, "b".data⟩])]
      "k".data = some [⟨"v".data, "T".data, "b".data⟩] ∧
    removeValueForKey false false
      [("k".data, [⟨"v".data, "T".data, "b".data⟩])] "k".data "V ".data =
      (true, []) ∧
    getEntryForKey false ([] : Store) "k".data = none :=
  ⟨by simp [storeInvariant],
    c2_no_empty_persisted.1 false false [] "k".data "v".data
      ⟨"u".data, [], "b".data, "B".data⟩ "T".data (by simp [storeInvariant]),
    by decide, by decide,
    c2_no_empty_persisted.2.2.2
      [("k".data, [⟨"v".data, "T".data, "b".data⟩])] [] "k".data "V ".data
      ⟨"v".data, "T".data, "b".data⟩ (by decide) (by decide)⟩

/-! Command classification. -/

/-- Characterization of `matchesCommand`: the trimmed text is `!`, the word,
then either nothing or a whitespace character. -/
theorem matchesCommand_iff (t cmd : Str) :
    matchesCommand t cmd = true ↔
      ∃ rest, trim t = '!' :: (cmd ++ rest) ∧
        (rest = [] ∨ ∃ ch rs, rest = ch :: rs ∧ isWSpace ch = true) := by
  rw [matchesCommand]
  constructor
  · intro h
    by_cases hic : isCommand t = true
    · rw [hic] at h
      simp only [Bool.not_true, Bool.false_eq_true, if_false] at h
      by_cases hpre : List.isPrefixOf ('!' :: cmd) (trim t) = true
      · have hp2 : ('!' :: cmd) <+: trim t := ( List.isPrefixOf_iff_prefix).mp hpre
        rcases hp2 with ⟨rest, hrest⟩
        have htr : trim t = '!' :: (cmd ++ rest) := by
          rw [← hrest]
          simp
        refine ⟨rest, htr, ?_⟩
        rw [hpre] at h
        simp only [Bool.not_true, Bool.false_eq_true, if_false] at h
        have hdrop : (trim t).drop (cmd.length + 1) = rest := by
          rw [← hrest]
          exact List.drop_left' (by simp)
        rw [hdrop] at h
        cases rest with
        | nil => exact Or.inl rfl
        | cons ch rs => exact Or.inr ⟨ch, rs, rfl, by simpa using h⟩
      · rw [Bool.eq_false_iff.mpr hpre] at h
        simp at h
    · rw [Bool.eq_false_iff.mpr hic] at h
      simp at h
  · rintro ⟨rest, htr, hb⟩
    have hic : isCommand t = true := by
      rw [isCommand, htr]
      simp
    have hpre : List.isPrefixOf ('!' :: cmd) (trim t) = true := by
      rw [ List.isPrefixOf_iff_prefix]
      exact ⟨rest, by rw [htr]; simp⟩
    simp only [hic, hpre, Bool.not_true, Bool.false_eq_true, if_false]
    have hdrop : (trim t).drop (cmd.length + 1) = rest := by
      rw [htr]
      have : trim t = ('!' :: cmd) ++ rest := by rw [htr]; simp
      rw [← htr, this]
      exact List.drop_left' (by simp)
    rw [hdrop]
    rcases hb with rfl | ⟨ch, rs, rfl, hch⟩
    · rfl
    · simpa using hch

/-- Two command words can both match only when one is a prefix of the
other. -/
theorem matchesCommand_mutex {t c1 c2 : Str}
    (h1 : matchesCommand t c1 = true) (h2 : matchesCommand t c2 = true)
    (hnp : (List.isPrefixOf c1 c2 || List.isPrefixOf c2 c1) = false) : False := by
  rcases (matchesCommand_iff t c1).mp h1 with ⟨r1, htr1, _⟩
  rcases (matchesCommand_iff t c2).mp h2 with ⟨r2, htr2, _⟩
  have heq : c1 ++ r1 = c2 ++ r2 := by
    have := htr1 ▸ htr2
    exact (List.cons_eq_cons.mp this).2
  have p1 : c1 <+: c2 ++ r2 := ⟨r1, heq⟩
  have p2 : c2 <+: c2 ++ r2 := List.prefix_append c2 r2
  rcases Bool.or_eq_false_iff.mp hnp with ⟨hn1, hn2⟩
  rcases Nat.le_total c1.length c2.length with hle | hle
  · have : c1 <+: c2 := List.prefix_of_prefix_length_le p1 p2 hle
    rw [( List.isPrefixOf_iff_prefix).mpr this] at hn1
    exact absurd hn1 (by simp)
  · have p1' : c1 <+: c1 ++ r1 := List.prefix_append c1 r1
    have p2' : c2 <+: c1 ++ r1 := heq ▸ p2
    have : c2 <+: c1 := List.prefix_of_prefix_length_le p2' p1' hle
    rw [( List.isPrefixOf_iff_prefix).mpr this] at hn2
    exact absurd hn2 (by simp)

/-- No two distinct commands can match the same text. -/
theorem cmd_mutex (c c' : Cmd) {t : Str} (hne : c ≠ c')
    (h : matchesCommand t (cmdWord c) = true)
    (h' : matchesCommand t (cmdWord c') = true) : False := by
  cases c <;> cases c' <;>
    first
      | exact hne rfl
      | exact matchesCommand_mutex h h' (by decide)

/-- `getCommandType` returns a command exactly when its word matches. -/
theorem getCommandType_eq_some_iff (t : Str) (c : Cmd) :
    getCommandType t = some c ↔ matchesCommand t (cmdWord c) = true := by
  rw [getCommandType]
  constructor
  · intro h
    split_ifs at h with h1 h2 h3 h4 h5 <;>
      (cases Option.some.inj h; assumption)
  · intro h
    split_ifs with h1 h2 h3 h4 h5
    · cases c with
      | add => rfl
      | multiAdd => exact (cmd_mutex Cmd.multiAdd Cmd.add (by decide) h h1).elim
      | remove => exact (cmd_mutex Cmd.remove Cmd.add (by decide) h h1).elim
      | details => exact (cmd_mutex Cmd.details Cmd.add (by decide) h h1).elim
      | help => exact (cmd_mutex Cmd.help Cmd.add (by decide) h h1).elim
    · cases c with
      | add => exact (cmd_mutex Cmd.add Cmd.multiAdd (by decide) h h2).elim
      | multiAdd => rfl
      | remove => exact (cmd_mutex Cmd.remove Cmd.multiAdd (by decide) h h2).elim
      | details => exact (cmd_mutex Cmd.details Cmd.multiAdd (by decide) h h2).elim
      | help => exact (cmd_mutex Cmd.help Cmd.multiAdd (by decide) h h2).elim
    · cases c with
      | add => exact (cmd_mutex Cmd.add Cmd.remove (by decide) h h3).elim
      | multiAdd => exact (cmd_mutex Cmd.multiAdd Cmd.remove (by decide) h h3).elim
      | remove => rfl
      | details => exact (cmd_mutex Cmd.details Cmd.remove (by decide) h h3).elim
      | help => exact (cmd_mutex Cmd.help Cmd.remove (by decide) h h3).elim
    · cases c with
      | add => exact (cmd_mutex Cmd.add Cmd.details (by decide) h h4).elim
      | multiAdd => exact (cmd_mutex Cmd.multiAdd Cmd.details (by decide) h h4).elim
      | remove => exact (cmd_mutex Cmd.remove Cmd.details (by decide) h h4).elim
      | details => rfl
      | help => exact (cmd_mutex Cmd.help Cmd.details (by decide) h h4).elim
    · cases c with
      | add => exact (cmd_mutex Cmd.add Cmd.help (by decide) h h5).elim
      | multiAdd => exact (cmd_mutex Cmd.multiAdd Cmd.help (by decide) h h5).elim
      | remove => exact (cmd_mutex Cmd.remove Cmd.help (by decide) h h5).elim
      | details => exact (cmd_mutex Cmd.details Cmd.help (by decide) h h5).elim
      | help => rfl
    · cases c with
      | add => exact absurd h h1
      | multiAdd => exact absurd h h2
      | remove => exact absurd h h3
      | details => exact absurd h h4
      | help => exact absurd h h5

/-- C3: `getCommandType` returns a command exactly when the trimmed text is
`!`, the command word, and then end-of-string or whitespace; `!addendum` is
not a command while `!add key:value` is. -/
theorem c3_command_classification :
    (∀ t c, getCommandType t = some c ↔
      ∃ rest, trim t = '!' :: (cmdWord c ++ rest) ∧
        (rest = [] ∨ ∃ ch rs, rest = ch :: rs ∧ isWSpace ch = true)) ∧
    getCommandType "!addendum".data = none ∧
    getCommandType "!add key:value".data = some Cmd.add := by
  refine ⟨?_, by decide, by decide⟩
  intro t c
  rw [getCommandType_eq_some_iff, matchesCommand_iff]

/-- Witness for C3 at `!add key:value`. -/
theorem c3_witness :
    ∃ rest, trim "!add key:value".data = '!' :: (cmdWord Cmd.add ++ rest) ∧
      (rest = [] ∨ ∃ ch rs, rest = ch :: rs ∧ isWSpace ch = true) :=
  (c3_command_classification.1 "!add key:value".data Cmd.add).mp (by decide)

/-- A word that lower-cases to a command word but differs from it matches no
command word (the two prefix implications are discharged per concrete pair). -/
theorem matchesCommand_eq_false_of_case_variant {t w rest c cp : Str}
    (ht : trim t = '!' :: (w ++ rest)) (hw : toLowerStr w = c) (hne : w ≠ c)
    (hlc : toLowerStr cp = cp)
    (hp1 : cp <+: c → cp = c) (hp2 : c <+: cp → c = cp) :
    matchesCommand t cp = false := by
  by_contra hmc
  have hmc' : matchesCommand t cp = true := by
    cases hv : matchesCommand t cp
    · exact absurd hv hmc
    · rfl
  rcases (matchesCommand_iff t cp).mp hmc' with ⟨r2, htr2, _⟩
  have heq : w ++ rest = cp ++ r2 := by
    have := ht ▸ htr2
    exact List.cons_eq_cons.mp this |>.2
  have hclen : c.length = w.length := by
    rw [← hw, toLowerStr, List.length_map]
  rcases Nat.le_total cp.length w.length with hle | hle
  · have p1 : cp <+: w ++ rest := ⟨r2, heq.symm⟩
    have pw : w <+: w ++ rest := List.prefix_append w rest
    have hcw : cp <+: w := List.prefix_of_prefix_length_le p1 pw hle
    have hmap : toLowerStr cp <+: toLowerStr w := by
      rw [toLowerStr, toLowerStr]
      exact List.IsPrefix.map Char.toLower hcw
    rw [hlc, hw] at hmap
    have hcc : cp = c := hp1 hmap
    have : cp = w := hcw.eq_of_length (by rw [hcc, hclen])
    exact hne (this ▸ hcc)
  · have p2 : w <+: cp ++ r2 := ⟨rest, heq⟩
    have pc : cp <+: cp ++ r2 := List.prefix_append cp r2
    have hwc : w <+: cp := List.prefix_of_prefix_length_le p2 pc hle
    have hmap : toLowerStr w <+: toLowerStr cp := by
      rw [toLowerStr, toLowerStr]
      exact List.IsPrefix.map Char.toLower hwc
    rw [hlc, hw] at hmap
    have hcc : c = cp := hp2 hmap
    have : w = cp := hwc.eq_of_length (by rw [← hcc, hclen])
    exact hne (this ▸ hcc.symm)

/-- C10: an upper- or mixed-case spelling of a command word is not recognized
as a command, and the whole text is handled as a bare search key. -/
theorem c10_case_sensitive_commands (m : Msg) (appUser : Option User)
    (rf wf : Bool) (fmtDate : Str → Str) (now : Str) (s : Store)
    (w rest : Str) (c : Cmd)
    (ht : trim m.text = '!' :: (w ++ rest))
    (hw : toLowerStr w = cmdWord c) (hne : w ≠ cmdWord c) :
    getCommandType (trim m.text) = none ∧
    (shouldProcessMessage appUser m = true →
      executePostMessageSent appUser rf wf fmtDate now s m =
        (handleKeySearch rf s (trim m.text), s)) := by
  have ht' : trim (trim m.text) = '!' :: (w ++ rest) := by
    rw [trim_idem]
    exact ht
  have hfalse : ∀ cp : Cmd, matchesCommand (trim m.text) (cmdWord cp) = false := by
    intro cp
    cases c <;> cases cp <;>
      exact matchesCommand_eq_false_of_case_variant ht' hw hne (by decide)
        (by decide) (by decide)
  have hA : matchesCommand (trim m.text) CMD_ADD = false := hfalse Cmd.add
  have hM : matchesCommand (trim m.text) CMD_MULTI_ADD = false := hfalse Cmd.multiAdd
  have hR : matchesCommand (trim m.text) CMD_REMOVE = false := hfalse Cmd.remove
  have hD : matchesCommand (trim m.text) CMD_DETAILS = false := hfalse Cmd.details
  have hH : matchesCommand (trim m.text) CMD_HELP = false := hfalse Cmd.help
  have hnone : getCommandType (trim m.text) = none := by
    rw [getCommandType]
    simp [hA, hM, hR, hD, hH]
  refine ⟨hnone, fun hsp => ?_⟩
  rw [executePostMessageSent, hsp]
  simp only [Bool.not_true, Bool.false_eq_true, if_false, hnone]

/-- Witness for C10 at `!Add k:v`. -/
theorem c10_witness :
    trim "!Add k:v".data = '!' :: ("Add".data ++ " k:v".data) ∧
    (getCommandType (trim "!Add k:v".data) = none ∧
    (shouldProcessMessage (some ⟨"bot".data, [], "bot".data, "Bot".data⟩)
        ⟨"!Add k:v".data, ⟨"u".data, [], "u".data, "U".data⟩, 'd'⟩ = true →
      executePostMessageSent (some ⟨"bot".data, [], "bot".data, "Bot".data⟩)
          false false id "T".data []
          ⟨"!Add k:v".data, ⟨"u".data, [], "u".data, "U".data⟩, 'd'⟩ =
        (handleKeySearch false [] (trim "!Add k:v".data), []))) :=
  ⟨by decide,
    c10_case_sensitive_commands
      ⟨"!Add k:v".data, ⟨"u".data, [], "u".data, "U".data⟩, 'd'⟩
      (some ⟨"bot".data, [], "bot".data, "Bot".data⟩) false false id "T".data []
      "Add".data " k:v".data Cmd.add (by decide) (by decide) (by decide)⟩

/-! C4: `parseKeyValue` against the spec's reading. -/

theorem isValidKey_trim_eq (x : Str) :
    isValidKey (trim x) = !decide (trim x = []) := by
  rw [isValidKey, normalizeKey, trim_idem, toLowerStr]
  cases h : trim x with
  | nil => simp
  | cons c cs => simp

theorem isValidValue_trim_eq (x : Str) :
    isValidValue (trim x) = !decide (trim x = []) := by
  rw [isValidValue, normalizeValue, trim_idem, toLowerStr]
  cases h : trim x with
  | nil => simp
  | cons c cs => simp

/-- The spec's reading of pair parsing: split at the first colon, trim both
sides; fail when there is no colon, the colon is the first character, or
either side trims to empty. -/
def parseKeyValueSpecRead (t : Str) : Option KeyValuePair :=
  match indexOfColon t with
  | none => none
  | some 0 => none
  | some i =>
    let key := trim (t.take i)
    let value := trim (t.drop (i + 1))
    if key = [] || value = [] then none
    else some ⟨key, value⟩

/-- C4: `parseKeyValue` computes exactly the spec's reading on every input. -/
theorem c4_parseKeyValue_spec (t : Str) : parseKeyValue t = parseKeyValueSpecRead t := by
  rw [parseKeyValue, parseKeyValueSpecRead]
  by_cases h0 : t = []
  · subst h0
    simp [indexOfColon]
  · rw [if_neg h0]
    cases hidx : indexOfColon t with
    | none => rfl
    | some i =>
      cases i with
      | zero => rfl
      | succ n =>
        simp only [isValidKey_trim_eq, isValidValue_trim_eq, Bool.not_not]

/-! C6: the silent-ignore guard of `executePostMessageSent`. -/

/-- C6: a message outside a direct room, or from the bot itself, or blank
after trim, produces no send and no store change. -/
theorem c6_silent_ignore (appUser : Option User) (rf wf : Bool)
    (fmtDate : Str → Str) (now : Str) (s : Store) (m : Msg)
    (h : m.roomType ≠ 'd' ∨
      (∃ bot, appUser = some bot ∧ m.sender.id = bot.id) ∨ trim m.text = []) :
    executePostMessageSent appUser rf wf fmtDate now s m = ([], s) := by
  have hsp : shouldProcessMessage appUser m = false := by
    rw [shouldProcessMessage.eq_def]
    by_cases hroom : m.roomType ≠ 'd'
    · simp [hroom]
    · rcases h with h | ⟨bot, rfl, hid⟩ | h
      · exact absurd h hroom
      · simp [hroom, hid]
      · cases appUser with
        | none => simp [hroom]
        | some bot =>
          by_cases hid : m.sender.id = bot.id
          · simp [hroom, hid]
          · simp [hroom, hid, h]
  rw [executePostMessageSent, hsp]
  rfl

/-- Witness for C6: a group-room message is dropped. -/
theorem c6_witness :
    ('c' : Char) ≠ 'd' ∧
    executePostMessageSent (some ⟨"bot".data, [], "bot".data, "Bot".data⟩)
        false false id "T".data []
        ⟨"hello".data, ⟨"u".data, [], "u".data, "U".data⟩, 'c'⟩ = ([], []) :=
  ⟨by decide,
    c6_silent_ignore (some ⟨"bot".data, [], "bot".data, "Bot".data⟩)
      false false id "T".data []
      ⟨"hello".data, ⟨"u".data, [], "u".data, "U".data⟩, 'c'⟩
      (Or.inl (by decide))⟩

/-! C5: multi-add counting and summary. -/

theorem processPairs_count (rf wf : Bool) (now : Str) (u : User) :
    ∀ (pairs : List KeyValuePair) (s : Store),
      (processPairs rf wf now u s pairs).1 +
        (processPairs rf wf now u s pairs).2.1 +
        (processPairs rf wf now u s pairs).2.2.1 = pairs.length := by
  intro pairs
  induction pairs with
  | nil => intro s; simp [processPairs]
  | cons p rest ih =>
    intro s
    rw [processPairs]
    have hr := ih (addValueToKey rf wf s p.key p.value u now).2
    simp only [List.length_cons]
    split_ifs <;> (dsimp only; omega)

/-- The summary's shape: added count always first, duplicate and error lines
present exactly when their counts are positive. -/
theorem multiAddSummary_eq (a d e : Nat) :
    multiAddSummary a d e =
      ("✅ Добавлено значений: ".data ++ natStr a) ++
        (if 0 < d then '\n' :: ("⚠️ Пропущено дубликатов: ".data ++ natStr d)
          else []) ++
        (if 0 < e then '\n' :: ("❌ Ошибок: ".data ++ natStr e) else []) := by
  rw [multiAddSummary]
  by_cases hd : 0 < d <;> by_cases he : 0 < e <;>
    simp [hd, he, joinLines, List.append_assoc]

theorem sendOut_eq_self {t : Str} (h : trim t ≠ []) : sendOut t = [t] := by
  rw [sendOut, if_neg h]

theorem trim_multiAddSummary_ne_nil (a d e : Nat) :
    trim (multiAddSummary a d e) ≠ [] := by
  rw [multiAddSummary_eq]
  have hP : ("✅ Добавлено значений: ".data : Str) =
      '✅' :: " Добавлено значений: ".data := by decide
  rw [hP]
  simp only [List.cons_append]
  exact trim_ne_nil_of_head _ (by decide)

/-- C5: zero parsed pairs give the fixed invalid-format reply and an
unchanged store; otherwise the pairs are processed sequentially, the three
tallies sum to the number of pairs, and the reply is the summary whose added
count is always present and whose duplicate/error lines appear exactly when
nonzero. -/
theorem c5_multi_add (rf wf : Bool) (now : Str) (s : Store) (m : Msg) :
    (parseMultiAdd (extractCommandPayload (trim m.text) CMD_MULTI_ADD) = [] →
      handleMultiAddCommand rf wf now s m = ([MSG_INVALID_MULTI_ADD_FORMAT], s)) ∧
    (∀ pairs,
      pairs = parseMultiAdd (extractCommandPayload (trim m.text) CMD_MULTI_ADD) →
      pairs ≠ [] →
      (processPairs rf wf now m.sender s pairs).1 +
          (processPairs rf wf now m.sender s pairs).2.1 +
          (processPairs rf wf now m.sender s pairs).2.2.1 = pairs.length ∧
        handleMultiAddCommand rf wf now s m =
          ([multiAddSummary (processPairs rf wf now m.sender s pairs).1
              (processPairs rf wf now m.sender s pairs).2.1
              (processPairs rf wf now m.sender s pairs).2.2.1],
            (processPairs rf wf now m.sender s pairs).2.2.2)) ∧
    (∀ a d e, multiAddSummary a d e =
      ("✅ Добавлено значений: ".data ++ natStr a) ++
        (if 0 < d then '\n' :: ("⚠️ Пропущено дубликатов: ".data ++ natStr d)
          else []) ++
        (if 0 < e then '\n' :: ("❌ Ошибок: ".data ++ natStr e) else [])) := by
  refine ⟨?_, ?_, multiAddSummary_eq⟩
  · intro hz
    have hs : sendOut MSG_INVALID_MULTI_ADD_FORMAT = [MSG_INVALID_MULTI_ADD_FORMAT] :=
      sendOut_eq_self (by decide)
    rw [handleMultiAddCommand]
    simp [hz, hs]
  · intro pairs hp hne
    refine ⟨processPairs_count rf wf now m.sender pairs s, ?_⟩
    rw [handleMultiAddCommand]
    simp only [← hp]
    rw [if_neg hne]
    rw [sendOut_eq_self (trim_multiAddSummary_ne_nil _ _ _)]

/-- Witness for C5 on the payload `A:1; B:2; A:1; garbage`. -/
theorem c5_witness :
    (processPairs false false "T".data ⟨"u".data, [], "u".data, "U".data⟩ []
          [⟨"A".data, "1".data⟩, ⟨"B".data, "2".data⟩, ⟨"A".data, "1".data⟩]).1 +
        (processPairs false false "T".data ⟨"u".data, [], "u".data, "U".data⟩ []
          [⟨"A".data, "1".data⟩, ⟨"B".data, "2".data⟩, ⟨"A".data, "1".data⟩]).2.1 +
        (processPairs false false "T".data ⟨"u".data, [], "u".data, "U".data⟩ []
          [⟨"A".data, "1".data⟩, ⟨"B".data, "2".data⟩,
            ⟨"A".data, "1".data⟩]).2.2.1 =
      ([⟨"A".data, "1".data⟩, ⟨"B".data, "2".data⟩,
        ⟨"A".data, "1".data⟩] : List KeyValuePair).length ∧
    handleMultiAddCommand false false "T".data []
        ⟨"!multi-add\nA:1;\nB:2;\nA:1;\ngarbage".data,
          ⟨"u".data, [], "u".data, "U".data⟩, 'd'⟩ =
      ([multiAddSummary
          (processPairs false false "T".data ⟨"u".data, [], "u".data, "U".data⟩ []
            [⟨"A".data, "1".data⟩, ⟨"B".data, "2".data⟩, ⟨"A".data, "1".data⟩]).1
          (processPairs false false "T".data ⟨"u".data, [], "u".data, "U".data⟩ []
            [⟨"A".data, "1".data⟩, ⟨"B".data, "2".data⟩, ⟨"A".data, "1".data⟩]).2.1
          (processPairs false false "T".data ⟨"u".data, [], "u".data, "U".data⟩ []
            [⟨"A".data, "1".data⟩, ⟨"B".data, "2".data⟩,
              ⟨"A".data, "1".data⟩]).2.2.1],
        (processPairs false false "T".data ⟨"u".data, [], "u".data, "U".data⟩ []
          [⟨"A".data, "1".data⟩, ⟨"B".data, "2".data⟩,
            ⟨"A".data, "1".data⟩]).2.2.2) :=
  (c5_multi_add false false "T".data []
      ⟨"!multi-add\nA:1;\nB:2;\nA:1;\ngarbage".data,
        ⟨"u".data, [], "u".data, "U".data⟩, 'd'⟩).2.1
    [⟨"A".data, "1".data⟩, ⟨"B".data, "2".data⟩, ⟨"A".data, "1".data⟩]
    (by decide) (by decide)

/-! Non-blank templates survive `sendMessage`'s blank-text guard. -/

theorem trim_ne_nil_of_trimL {x : Str} (h : trimL x ≠ []) : trim x ≠ [] := by
  rw [trim]
  cases hx : trimL x with
  | nil => exact absurd hx h
  | cons c cs =>
    rw [trimR_cons_of_not_ws cs (trimL_head_not_ws hx)]
    simp

theorem trim_append_ne_nil_left {t : Str} (rest : Str) (h : trimL t ≠ []) :
    trim (t ++ rest) ≠ [] := by
  apply trim_ne_nil_of_trimL
  rw [trimL_append]
  split_ifs with h1
  · exact absurd h1 h
  · simp [ List.append_eq_nil, h]

theorem trim_MSG_VALUE_ADDED_ne_nil (k v : Str) :
    trim (MSG_VALUE_ADDED k v) ≠ [] := by
  rw [MSG_VALUE_ADDED]
  simp only [List.append_assoc]
  exact trim_append_ne_nil_left _ (by decide)

theorem trim_MSG_DUPLICATE_VALUE_ne_nil (k : Str) :
    trim (MSG_DUPLICATE_VALUE k) ≠ [] := by
  rw [MSG_DUPLICATE_VALUE]
  simp only [List.append_assoc]
  exact trim_append_ne_nil_left _ (by decide)

/-- A successful parse yields a valid key and a valid value. -/
theorem parseKeyValue_valid {t : Str} {p : KeyValuePair}
    (h : parseKeyValue t = some p) :
    isValidKey p.key = true ∧ isValidValue p.value = true := by
  rw [parseKeyValue] at h
  by_cases h0 : t = []
  · rw [if_pos h0] at h
    exact absurd h (by simp)
  · rw [if_neg h0] at h
    split at h
    · exact absurd h (by simp)
    · exact absurd h (by simp)
    · dsimp only at h
      split_ifs at h with hval
      cases Option.some.inj h
      rcases Bool.or_eq_false_iff.mp (Bool.eq_false_iff.mpr hval) with ⟨h1, h2⟩
      exact ⟨by simpa using h1, by simpa using h2⟩

/-- C7 counterexample: a raising persistence read alone (`rf = true`) does
not produce the Error result — the read layer absorbs it as "absent" and the
add proceeds and returns Added. -/
theorem c7_counterexample :
    (addValueToKey true false [] "k".data "v".data
        ⟨"u".data, [], "b".data, "B".data⟩ "T".data).1.added = true ∧
    (addValueToKey true false [] "k".data "v".data
        ⟨"u".data, [], "b".data, "B".data⟩ "T".data).1.reason ≠
      some AddFailReason.err := by
  decide

/-- C7 (amended): a raising persistence write (`wf = true`) reached by the
add (valid pair, no duplicate) yields the Error result and the `!add` reply
is the fixed generic save-error template; and every `!add` reply is one of
the four fixed templates, so no fault detail ever reaches the user. -/
theorem c7_persistence_fault (rf : Bool) (s : Store) (m : Msg) (now : Str)
    (pair : KeyValuePair)
    (hp : parseKeyValue (extractCommandPayload (trim m.text) CMD_ADD) = some pair)
    (hnd : ((getEntryForKey rf s pair.key).getD []).any
      (fun item => normalizeValue item.value = normalizeValue pair.value) = false) :
    (addValueToKey rf true s pair.key pair.value m.sender now).1 =
      ⟨false, some AddFailReason.err⟩ ∧
    (handleAddCommand rf true now s m).1 = [MSG_SAVE_ERROR] ∧
    (∀ wf2 s2, (handleAddCommand rf wf2 now s2 m).1 = [MSG_INVALID_ADD_FORMAT] ∨
      (∃ k v, (handleAddCommand rf wf2 now s2 m).1 = [MSG_VALUE_ADDED k v]) ∨
      (∃ k, (handleAddCommand rf wf2 now s2 m).1 = [MSG_DUPLICATE_VALUE k]) ∨
      (handleAddCommand rf wf2 now s2 m).1 = [MSG_SAVE_ERROR]) := by
  rcases parseKeyValue_valid hp with ⟨hk, hv⟩
  have hres : (addValueToKey rf true s pair.key pair.value m.sender now).1 =
      ⟨false, some AddFailReason.err⟩ := by
    rw [addValueToKey_spec]
    rw [hk, hv, hnd]
    simp
  refine ⟨hres, ?_, ?_⟩
  · rw [handleAddCommand]
    simp only [hp]
    rw [hres]
    simp [sendOut_eq_self (show trim MSG_SAVE_ERROR ≠ [] by decide)]
  · intro wf2 s2
    rw [handleAddCommand]
    cases hq : parseKeyValue (extractCommandPayload (trim m.text) CMD_ADD) with
    | none =>
      exact Or.inl (by rw [sendOut_eq_self (show trim MSG_INVALID_ADD_FORMAT ≠ [] by decide)])
    | some q =>
      dsimp only
      by_cases ha : (addValueToKey rf wf2 s2 q.key q.value m.sender now).1.added = true
      · refine Or.inr (Or.inl ⟨q.key, q.value, ?_⟩)
        simp [ha, sendOut_eq_self (trim_MSG_VALUE_ADDED_ne_nil q.key q.value)]
      · by_cases hd : (addValueToKey rf wf2 s2 q.key q.value m.sender now).1.reason =
            some AddFailReason.duplicate
        · refine Or.inr (Or.inr (Or.inl ⟨q.key, ?_⟩))
          simp [ha, hd, sendOut_eq_self (trim_MSG_DUPLICATE_VALUE_ne_nil q.key)]
        · refine Or.inr (Or.inr (Or.inr ?_))
          simp [ha, hd, sendOut_eq_self (show trim MSG_SAVE_ERROR ≠ [] by decide)]

/-- Witness for C7's amended theorem: write fault on `!add k:v` over the
empty store. -/
theorem c7_witness :
    (addValueToKey false true [] "k".data "v".data
        ⟨"u".data, [], "u".data, "U".data⟩ "T".data).1 =
      ⟨false, some AddFailReason.err⟩ ∧
    (handleAddCommand false true "T".data []
        ⟨"!add k:v".data, ⟨"u".data, [], "u".data, "U".data⟩, 'd'⟩).1 =
      [MSG_SAVE_ERROR] ∧
    (∀ wf2 s2, (handleAddCommand false wf2 "T".data s2
        ⟨"!add k:v".data, ⟨"u".data, [], "u".data, "U".data⟩, 'd'⟩).1 =
          [MSG_INVALID_ADD_FORMAT] ∨
      (∃ k v, (handleAddCommand false wf2 "T".data s2
        ⟨"!add k:v".data, ⟨"u".data, [], "u".data, "U".data⟩, 'd'⟩).1 =
          [MSG_VALUE_ADDED k v]) ∨
      (∃ k, (handleAddCommand false wf2 "T".data s2
        ⟨"!add k:v".data, ⟨"u".data, [], "u".data, "U".data⟩, 'd'⟩).1 =
          [MSG_DUPLICATE_VALUE k]) ∨
      (handleAddCommand false wf2 "T".data s2
        ⟨"!add k:v".data, ⟨"u".data, [], "u".data, "U".data⟩, 'd'⟩).1 =
          [MSG_SAVE_ERROR]) :=
  c7_persistence_fault false []
    ⟨"!add k:v".data, ⟨"u".data, [], "u".data, "U".data⟩, 'd'⟩ "T".data
    ⟨"k".data, "v".data⟩ (by decide) (by decide)

/-! C8: the details round-trip.  Helper facts about trimmed-shape texts. -/

theorem head_not_ws_of_trim_self {X : Str} (hX : trim X = X) (hne : X ≠ []) :
    ∃ c cs, X = c :: cs ∧ isWSpace c = false := by
  cases hxx : X with
  | nil => exact absurd hxx hne
  | cons c cs =>
    refine ⟨c, cs, rfl, ?_⟩
    have h1 := trimL_eq_self_of_trim_eq hX
    rw [hxx] at h1
    exact trimL_head_not_ws h1

theorem rev_trimL_of_trim_self {Y : Str} (hY : trim Y = Y) :
    trimL Y.reverse = Y.reverse := by
  have h2 := trimR_eq_self_of_trim_eq hY
  rw [trimR] at h2
  have h3 := congrArg List.reverse h2
  simpa using h3

theorem trimR_append_right {xs Y : Str} (hY : trimL Y.reverse = Y.reverse)
    (hne : Y ≠ []) : trimR (xs ++ Y) = xs ++ Y := by
  apply trimR_eq_self
  rw [List.reverse_append, trimL_append, hY, if_neg (by simp [hne])]

theorem trim_append_right {c : Char} {cs : Str} (Y : Str) (hc : isWSpace c = false)
    (hY : trimL Y.reverse = Y.reverse) (hne : Y ≠ []) :
    trim ((c :: cs) ++ Y) = (c :: cs) ++ Y := by
  rw [trim, List.cons_append, trimL_cons_of_not_ws _ hc, ← List.cons_append]
  exact trimR_append_right hY hne

theorem indexOfColon_append (X Y : Str) (hXc : ':' ∉ X) :
    indexOfColon (X ++ ':' :: Y) = some X.length := by
  induction X with
  | nil => simp [indexOfColon]
  | cons c cs ih =>
    have hc : ¬ c = ':' := fun h => hXc (h ▸ List.mem_cons_self c cs)
    rw [List.cons_append, indexOfColon, if_neg hc,
      ih (fun h => hXc (List.mem_cons_of_mem c h))]
    simp

/-- Reduction of `parseKeyValue` once the colon position is known. -/
theorem parseKeyValue_eq_of_idx {t : Str} {n : Nat}
    (ht : t ≠ []) (hidx : indexOfColon t = some (n + 1)) :
    parseKeyValue t =
      (if !isValidKey (trim (t.take (n + 1))) ||
          !isValidValue (trim (t.drop (n + 1 + 1))) then none
        else some ⟨trim (t.take (n + 1)), trim (t.drop (n + 1 + 1))⟩) := by
  rw [parseKeyValue, if_neg ht, hidx]
  split
  · rename_i heq
    exact absurd heq (by simp)
  · rename_i heq
    exact absurd heq (by simp)
  · rename_i i heq
    cases Option.some.inj heq
    rfl

/-- Parsing a pre-trimmed `key:value` text yields exactly that pair. -/
theorem parse_pair_of_append (X Y : Str) (hXc : ':' ∉ X) (hX : trim X = X)
    (hXne : X ≠ []) (hY : trim Y = Y) (hYne : Y ≠ []) :
    parseKeyValue (X ++ ':' :: Y) = some ⟨X, Y⟩ := by
  obtain ⟨c, cs, hxx, hc⟩ := head_not_ws_of_trim_self hX hXne
  have hlen : X.length = cs.length + 1 := by rw [hxx]; simp
  have hidx : indexOfColon (X ++ ':' :: Y) = some (cs.length + 1) := by
    rw [indexOfColon_append X Y hXc, hlen]
  have htne : X ++ ':' :: Y ≠ [] := by simp
  rw [parseKeyValue_eq_of_idx htne hidx]
  have htake : (X ++ ':' :: Y).take (cs.length + 1) = X :=
    List.take_left' (by rw [hlen])
  have hdrop : (X ++ ':' :: Y).drop (cs.length + 1 + 1) = Y := by
    have hshape : X ++ ':' :: Y = (X ++ [':']) ++ Y := by simp
    rw [hshape]
    exact List.drop_left' (by rw [List.length_append, hlen]; rfl)
  rw [htake, hdrop, hX, hY]
  have hvk : isValidKey X = true := isValidKey_iff.mpr (by rw [hX]; exact hXne)
  have hvv : isValidValue Y = true := isValidValue_iff.mpr (by rw [hY]; exact hYne)
  rw [hvk, hvv]
  simp

/-- The payload the `!details` handler extracts from
`!details <key>:<value>` with pre-trimmed key and value. -/
theorem details_payload (X Y : Str) (hX : trim X = X) (hXne : X ≠ [])
    (hY : trim Y = Y) (hYne : Y ≠ []) :
    extractCommandPayload (trim ("!details ".data ++ (X ++ ':' :: Y)))
      CMD_DETAILS = X ++ ':' :: Y := by
  have hYr := rev_trimL_of_trim_self hY
  have hshape : ("!details ".data ++ (X ++ ':' :: Y) : Str) =
      ('!' :: ("details ".data ++ X ++ [':'])) ++ Y := by
    have hcons : ("!details ".data : Str) = '!' :: "details ".data := by decide
    rw [hcons]
    simp
  have htext : trim ("!details ".data ++ (X ++ ':' :: Y)) =
      "!details ".data ++ (X ++ ':' :: Y) := by
    rw [hshape, trim_append_right Y (by decide) hYr hYne, ← hshape]
  rw [htext, extractCommandPayload]
  have hlower : List.isPrefixOf ('!' :: CMD_DETAILS)
      (toLowerStr ("!details ".data ++ (X ++ ':' :: Y))) = true := by
    rw [ List.isPrefixOf_iff_prefix, toLowerStr, List.map_append]
    have hmap : ("!details ".data : Str).map Char.toLower = "!details ".data := by
      decide
    rw [hmap]
    have hsplit : ("!details ".data : Str) = ('!' :: CMD_DETAILS) ++ [' '] := by
      decide
    rw [hsplit, List.append_assoc]
    exact List.prefix_append _ _
  rw [htext, hlower]
  simp only [Bool.not_true, Bool.false_eq_true, if_false]
  have hdrop : ("!details ".data ++ (X ++ ':' :: Y)).drop
      (CMD_DETAILS.length + 1) = ' ' :: (X ++ ':' :: Y) := by
    have hsplit2 : ("!details ".data : Str) = "!details".data ++ [' '] := by decide
    rw [hsplit2, List.append_assoc]
    rw [List.drop_left' (by decide)]
    rfl
  rw [hdrop]
  have hws : trim (' ' :: (X ++ ':' :: Y)) = trim (X ++ ':' :: Y) := by
    rw [trim, trimL_cons_of_ws _ (by decide)]
    exact rfl
  rw [hws]
  obtain ⟨c, cs, hxx, hc⟩ := head_not_ws_of_trim_self hX hXne
  have hshape3 : X ++ ':' :: Y = (c :: (cs ++ [':'])) ++ Y := by
    rw [hxx]
    simp
  rw [hshape3, trim_append_right Y hc hYr hYne, ← hshape3]

theorem find?_append_right {existing : List GlossaryValue}
    {p : GlossaryValue → Bool} {w : GlossaryValue}
    (hex : existing.any p = false) (hw : p w = true) :
    (existing ++ [w]).find? p = some w := by
  rw [List.find?_append, List.find?_eq_none.mpr
    (fun x hx => by simp [List.any_eq_false.mp hex x hx])]
  simp [List.find?_cons, hw]

theorem trim_MSG_KEY_NOT_FOUND_ne_nil (k : Str) :
    trim (MSG_KEY_NOT_FOUND k) ≠ [] := by
  rw [MSG_KEY_NOT_FOUND]
  simp only [List.append_assoc]
  exact trim_append_ne_nil_left _ (by decide)

theorem trim_MSG_VALUE_NOT_FOUND_ne_nil (k v : Str) :
    trim (MSG_VALUE_NOT_FOUND k v) ≠ [] := by
  rw [MSG_VALUE_NOT_FOUND]
  simp only [List.append_assoc]
  exact trim_append_ne_nil_left _ (by decide)

/-- C8: after a successful add of `Y` under `X` by user `U` at time `T`, the
command `!details X:Y` replies with the key, the stored value, the formatted
timestamp and the author's resolved identity; an absent key gives the
key-not-found template, and an entry without a normalized match gives the
value-not-found template. -/
theorem c8_details_roundtrip (fmtDate : Str → Str) (m : Msg) (X Y : Str)
    (s s1 : Store) (U : User) (T : Str)
    (htext : m.text = "!details ".data ++ (X ++ ':' :: Y))
    (hXc : ':' ∉ X) (hX : trim X = X) (hXne : X ≠ [])
    (hY : trim Y = Y) (hYne : Y ≠ [])
    (hadd : addValueToKey false false s X Y U T = (⟨true, none⟩, s1)) :
    handleDetailsCommand false fmtDate s1 m =
      ["*Ключ:* ".data ++ X ++ "\n*Значение:* ".data ++ Y ++
        "\n*Добавлено:* ".data ++ fmtDate T ++ "\n*Автор:* ".data ++
        getUserEmail U] ∧
    (∀ s2, getEntryForKey false s2 X = none →
      handleDetailsCommand false fmtDate s2 m = [MSG_KEY_NOT_FOUND X]) ∧
    (∀ s2 entry, getEntryForKey false s2 X = some entry →
      entry.any (fun item => normalizeValue item.value = normalizeValue Y) = false →
      handleDetailsCommand false fmtDate s2 m = [MSG_VALUE_NOT_FOUND X Y]) := by
  have hpayload : extractCommandPayload (trim m.text) CMD_DETAILS =
      X ++ ':' :: Y := by
    rw [htext]
    exact details_payload X Y hX hXne hY hYne
  have hparse : parseKeyValue (extractCommandPayload (trim m.text) CMD_DETAILS) =
      some ⟨X, Y⟩ := by
    rw [hpayload]
    exact parse_pair_of_append X Y hXc hX hXne hY hYne
  rcases addValueToKey_added_facts hadd with ⟨hk, hv, hdup, hs1⟩
  refine ⟨?_, ?_, ?_⟩
  · have hentry : getEntryForKey false s1 X =
        some (((getEntryForKey false s X).getD []) ++
          [⟨trim Y, T, getUserEmail U⟩]) := by
      rw [hs1]
      exact getEntryForKey_save_self s _ hk (by simp)
    have hfind : (((getEntryForKey false s X).getD []) ++
        [(⟨trim Y, T, getUserEmail U⟩ : GlossaryValue)]).find?
          (fun item => normalizeValue item.value = normalizeValue Y) =
        some ⟨trim Y, T, getUserEmail U⟩ :=
      find?_append_right hdup (by simp [normalizeValue_trim])
    rw [handleDetailsCommand]
    simp only [hparse]
    dsimp only
    rw [hentry]
    dsimp only
    rw [hfind]
    dsimp only
    rw [hY]
    rw [sendOut_eq_self (by
      simp only [List.append_assoc]
      exact trim_append_ne_nil_left _ (by decide))]
  · intro s2 hnone
    rw [handleDetailsCommand]
    simp only [hparse]
    dsimp only
    rw [hnone]
    exact sendOut_eq_self (trim_MSG_KEY_NOT_FOUND_ne_nil X)
  · intro s2 entry hsome hnomatch
    rw [handleDetailsCommand]
    simp only [hparse]
    dsimp only
    rw [hsome]
    dsimp only
    rw [List.find?_eq_none.mpr
      (fun x hx => by simp [List.any_eq_false.mp hnomatch x hx])]
    exact sendOut_eq_self (trim_MSG_VALUE_NOT_FOUND_ne_nil X Y)

/-- Witness for C8: add `rest` under `api` by a user with a verified e-mail,
then ask `!details api:rest`. -/
theorem c8_witness :
    handleDetailsCommand false id
        [("api".data, [⟨"rest".data, "2024-01-01".data, "a@b.c".data⟩])]
        ⟨"!details api:rest".data,
          ⟨"u2".data, [], "eve".data, "Eve".data⟩, 'd'⟩ =
      ["*Ключ:* ".data ++ "api".data ++ "\n*Значение:* ".data ++ "rest".data ++
        "\n*Добавлено:* ".data ++ id "2024-01-01".data ++ "\n*Автор:* ".data ++
        getUserEmail ⟨"u1".data, [⟨"a@b.c".data, true⟩], "bob".data, "Bob".data⟩] ∧
    (∀ s2, getEntryForKey false s2 "api".data = none →
      handleDetailsCommand false id s2
          ⟨"!details api:rest".data,
            ⟨"u2".data, [], "eve".data, "Eve".data⟩, 'd'⟩ =
        [MSG_KEY_NOT_FOUND "api".data]) ∧
    (∀ s2 entry, getEntryForKey false s2 "api".data = some entry →
      entry.any (fun item =>
        normalizeValue item.value = normalizeValue "rest".data) = false →
      handleDetailsCommand false id s2
          ⟨"!details api:rest".data,
            ⟨"u2".data, [], "eve".data, "Eve".data⟩, 'd'⟩ =
        [MSG_VALUE_NOT_FOUND "api".data "rest".data]) :=
  c8_details_roundtrip id
    ⟨"!details api:rest".data, ⟨"u2".data, [], "eve".data, "Eve".data⟩, 'd'⟩
    "api".data "rest".data []
    [("api".data, [⟨"rest".data, "2024-01-01".data, "a@b.c".data⟩])]
    ⟨"u1".data, [⟨"a@b.c".data, true⟩], "bob".data, "Bob".data⟩
    "2024-01-01".data
    (by decide) (by decide) (by decide) (by decide) (by decide) (by decide)
    (by decide)

/-! C9: the bare-key search fallback. -/

theorem shouldProcess_text_ne_nil {appUser : Option User} {m : Msg}
    (h : shouldProcessMessage appUser m = true) : trim m.text ≠ [] := by
  rw [shouldProcessMessage.eq_def] at h
  by_cases hr : m.roomType ≠ 'd'
  · rw [if_pos hr] at h
    exact absurd h (by simp)
  · rw [if_neg hr] at h
    cases appUser with
    | none => exact absurd h (by simp)
    | some bot =>
      dsimp only at h
      by_cases hid : m.sender.id = bot.id
      · rw [if_pos hid] at h
        exact absurd h (by simp)
      · rw [if_neg hid] at h
        simpa using h

theorem trim_MSG_KEY_NOT_FOUND_SEARCH_ne_nil (k : Str) :
    trim (MSG_KEY_NOT_FOUND_SEARCH k) ≠ [] := by
  rw [MSG_KEY_NOT_FOUND_SEARCH]
  simp only [List.append_assoc]
  exact trim_append_ne_nil_left _ (by decide)

/-- The searched-for `!add <key>: <value>` hint sits literally inside the
search-miss template. -/
theorem addHint_infix_searchMiss (key : Str) :
    ("!add ".data ++ key ++ ": <ваше значение>`".data) <:+:
      MSG_KEY_NOT_FOUND_SEARCH key := by
  refine ⟨"Значение для ключа \"*".data ++ key ++
    "*\" не найдено.\n\nЧтобы добавить значение, используйте команду:\n`".data,
    [], ?_⟩
  rw [MSG_KEY_NOT_FOUND_SEARCH]
  have hlit : ("*\" не найдено.\n\nЧтобы добавить значение, используйте команду:\n`".data : Str) ++ "!add ".data =
      "*\" не найдено.\n\nЧтобы добавить значение, используйте команду:\n`!add ".data := by
    decide
  rw [← hlit]
  simp [List.append_assoc]

/-- C9: a guarded non-command message is looked up with its whole trimmed
text as key; one hit uses the singular template, several use the plural
numbered template in stored order, and a miss replies with the template
containing the literal `!add <key>: <value>` hint for that key. -/
theorem c9_search_fallback (appUser : Option User) (rf wf : Bool)
    (fmtDate : Str → Str) (now : Str) (s : Store) (m : Msg)
    (hsp : shouldProcessMessage appUser m = true)
    (hnc : getCommandType (trim m.text) = none) :
    executePostMessageSent appUser rf wf fmtDate now s m =
      (handleKeySearch rf s (trim m.text), s) ∧
    (∀ v, getValuesForKey rf s (trim m.text) = some [v] →
      handleKeySearch rf s (trim m.text) =
        ["*Ключ:* ".data ++ trim m.text ++ "\n*Значение:* ".data ++ v]) ∧
    (∀ vs, getValuesForKey rf s (trim m.text) = some vs → 2 ≤ vs.length →
      handleKeySearch rf s (trim m.text) =
        ["*Ключ:* ".data ++ trim m.text ++ "\n*Значения (".data ++
          natStr vs.length ++ "):*\n".data ++
          joinLines (vs.enum.map (fun p => natStr (p.1 + 1) ++ ". ".data ++ p.2))]) ∧
    ((getValuesForKey rf s (trim m.text) = none ∨
        getValuesForKey rf s (trim m.text) = some []) →
      handleKeySearch rf s (trim m.text) =
          [MSG_KEY_NOT_FOUND_SEARCH (trim m.text)] ∧
        ("!add ".data ++ trim m.text ++ ": <ваше значение>`".data) <:+:
          MSG_KEY_NOT_FOUND_SEARCH (trim m.text)) := by
  have htne := shouldProcess_text_ne_nil hsp
  have hvalid : isValidKey (trim m.text) = true := by
    apply isValidKey_iff.mpr
    rw [trim_idem]
    exact htne
  refine ⟨?_, ?_, ?_, ?_⟩
  · rw [executePostMessageSent, hsp]
    simp only [Bool.not_true, Bool.false_eq_true, if_false, hnc]
  · intro v hv
    rw [handleKeySearch, hvalid]
    simp only [Bool.not_true, Bool.false_eq_true, if_false]
    rw [hv]
    dsimp only
    rw [if_pos (by simp)]
    rw [formatValuesForDisplay,
      if_pos (show ([v] : List Str).length = 1 by simp)]
    simp only [List.headD]
    rw [sendOut_eq_self (by
      simp only [List.append_assoc]
      exact trim_append_ne_nil_left _ (by decide))]
  · intro vs hvs hlen
    rw [handleKeySearch, hvalid]
    simp only [Bool.not_true, Bool.false_eq_true, if_false]
    rw [hvs]
    dsimp only
    rw [if_pos (by omega)]
    rw [formatValuesForDisplay, if_neg (by omega)]
    rw [sendOut_eq_self (by
      simp only [List.append_assoc]
      exact trim_append_ne_nil_left _ (by decide))]
  · intro hcase
    refine ⟨?_, addHint_infix_searchMiss (trim m.text)⟩
    rw [handleKeySearch, hvalid]
    simp only [Bool.not_true, Bool.false_eq_true, if_false]
    rcases hcase with h | h
    · rw [h]
      exact sendOut_eq_self (trim_MSG_KEY_NOT_FOUND_SEARCH_ne_nil _)
    · rw [h]
      dsimp only
      rw [if_neg (by simp)]
      exact sendOut_eq_self (trim_MSG_KEY_NOT_FOUND_SEARCH_ne_nil _)

/-- Witness for C9: searching a never-added key `zzz` in a direct room. -/
theorem c9_witness :
    executePostMessageSent (some ⟨"bot".data, [], "bot".data, "Bot".data⟩)
        false false id "T".data []
        ⟨"zzz".data, ⟨"u".data, [], "u".data, "U".data⟩, 'd'⟩ =
      (handleKeySearch false [] (trim "zzz".data), []) ∧
    (handleKeySearch false [] (trim "zzz".data) =
        [MSG_KEY_NOT_FOUND_SEARCH (trim "zzz".data)] ∧
      ("!add ".data ++ trim "zzz".data ++ ": <ваше значение>`".data) <:+:
        MSG_KEY_NOT_FOUND_SEARCH (trim "zzz".data)) :=
  ⟨(c9_search_fallback (some ⟨"bot".data, [], "bot".data, "Bot".data⟩)
      false false id "T".data []
      ⟨"zzz".data, ⟨"u".data, [], "u".data, "U".data⟩, 'd'⟩
      (by decide) (by decide)).1,
    (c9_search_fallback (some ⟨"bot".data, [], "bot".data, "Bot".data⟩)
      false false id "T".data []
      ⟨"zzz".data, ⟨"u".data, [], "u".data, "U".data⟩, 'd'⟩
      (by decide) (by decide)).2.2.2 (Or.inl (by decide))⟩
